import Mathlib

/-!
Formal model of the tree-parser library (Rust): language tags and detection,
hierarchical construct extraction and flattening, the search layer, and the
directory-parsing pipeline, together with theorems about their behaviour.
External collaborators (the file system, the tree-sitter grammar engine and
the regex engine) are modelled as explicit inputs.
-/

namespace TreeParser

/-- Lowercasing as performed by str::to_lowercase in the Rust code; modelled as
ASCII case folding, which agrees with Rust on every literal the code compares
against. -/
def rustToLowercase (s : String) : String :=
  String.mk (s.data.map Char.toLower)

/-- Check whether the second character list is a leading segment of the first. -/
def startsWithChars : List Char → List Char → Bool
  | _, [] => true
  | [], _ :: _ => false
  | a :: as, b :: bs => a == b && startsWithChars as bs

/-- Substring containment on character lists, modelling str::contains. -/
def containsSub : List Char → List Char → Bool
  | [], pat => pat.isEmpty
  | a :: as, pat => startsWithChars (a :: as) pat || containsSub as pat

/-- Substring containment on strings, modelling str::contains with a string
pattern. -/
def strContains (s pat : String) : Bool :=
  containsSub s.data pat.data

/-- Split a character list on a separator character. -/
def splitOnChar (sep : Char) (l : List Char) : List (List Char) :=
  l.foldr
    (fun ch acc =>
      match acc with
      | [] => [[ch]]
      | h :: t => if ch == sep then [] :: h :: t else (ch :: h) :: t)
    [[]]

/-- Model of std Path file_name for plain forward-slash paths: the last path
component, or none when that component is empty or a dot component. -/
def path_file_name (path : String) : Option String :=
  match (splitOnChar '/' path.data).getLast? with
  | none => none
  | some comp =>
    if comp.isEmpty then none
    else if comp = ['.'] then none
    else if comp = ['.', '.'] then none
    else some (String.mk comp)

/-- Model of std Path extension: the part of the file name after the last dot,
or none when there is no dot or the only dot is the leading one. -/
def path_extension (path : String) : Option String :=
  match path_file_name path with
  | none => none
  | some fn =>
    match splitOnChar '.' fn.data with
    | [] => none
    | [_] => none
    | [p1, p2] => if p1.isEmpty then none else some (String.mk p2)
    | parts => (parts.getLast?).map String.mk

/-- Supported programming languages (lib.rs, enum Language). -/
inductive Language where
  | Python | Rust | JavaScript | TypeScript | Java | C | Cpp | Go
  | CSharp | Php | Ruby | Swift | Kotlin | Scala | Haskell | Lua
  | Perl | R | Bash | PowerShell | Html | Css | Sql | Json | Yaml | Toml | Xml
deriving DecidableEq

/-- Error taxonomy of the library (lib.rs, enum Error). -/
inductive Error where
  | Io : String → Error
  | Parse : String → Error
  | UnsupportedLanguage : String → Error
  | FileTooLarge : Nat → Error
  | PermissionDenied : String → Error
  | InvalidQuery : String → Error
deriving DecidableEq

/-- The Display rendering of Error produced by the thiserror derive
(lib.rs, the error attribute strings). -/
def Error.msgString : Error → String
  | .Io s => "IO error: " ++ s
  | .Parse s => "Parse error: " ++ s
  | .UnsupportedLanguage s => "Unsupported language: " ++ s
  | .FileTooLarge n => "File too large: " ++ toString n ++ " bytes"
  | .PermissionDenied s => "Permission denied: " ++ s
  | .InvalidQuery s => "Invalid query: " ++ s

/-- Coarse error categories for per-file failures (lib.rs, enum ErrorType). -/
inductive ErrorType where
  | ParseError | IoError | UnsupportedLanguage | FileTooLarge | PermissionDenied
deriving DecidableEq

/-- A per-file failure record (lib.rs, struct FileError). -/
structure FileError where
  file_path : String
  error_type : ErrorType
  message : String
deriving DecidableEq

/-- Language-detection strategies (lib.rs, enum LanguageDetection). -/
inductive LanguageDetection where
  | ByExtension | ByContent | ByShebang | Combined
deriving DecidableEq

/-- A function or method parameter (lib.rs, struct Parameter). -/
structure Parameter where
  name : String
  param_type : Option String
  default_value : Option String
  is_variadic : Bool
deriving DecidableEq

/-- Metadata attached to a construct (lib.rs, struct ConstructMetadata); the
annos field models the annotations list. -/
structure ConstructMetadata where
  visibility : Option String
  modifiers : List String
  parameters : List Parameter
  return_type : Option String
  inheritance : List String
  annos : List String
  documentation : Option String
deriving DecidableEq

/-- Conversion from a string to a language tag (utils.rs,
language_from_string): lowercase, then match against the alias table. -/
def language_from_string (lang_str : String) : Option Language :=
  match rustToLowercase lang_str with
  | "python" | "py" => some .Python
  | "rust" | "rs" => some .Rust
  | "javascript" | "js" => some .JavaScript
  | "typescript" | "ts" => some .TypeScript
  | "java" => some .Java
  | "c" => some .C
  | "cpp" | "c++" | "cxx" => some .Cpp
  | "go" | "golang" => some .Go
  | "csharp" | "c#" | "cs" => some .CSharp
  | "php" => some .Php
  | "ruby" | "rb" => some .Ruby
  | "swift" => some .Swift
  | "kotlin" | "kt" => some .Kotlin
  | "scala" => some .Scala
  | "haskell" | "hs" => some .Haskell
  | "lua" => some .Lua
  | "perl" | "pl" => some .Perl
  | "r" => some .R
  | "bash" | "sh" => some .Bash
  | "powershell" | "ps1" => some .PowerShell
  | "html" => some .Html
  | "css" => some .Css
  | "sql" => some .Sql
  | "json" => some .Json
  | "yaml" | "yml" => some .Yaml
  | "toml" => some .Toml
  | "xml" => some .Xml
  | _ => none

/-- Conversion from a language tag to its canonical display string (utils.rs,
language_to_string). -/
def language_to_string (language : Language) : String :=
  match language with
  | .Python => "Python"
  | .Rust => "Rust"
  | .JavaScript => "JavaScript"
  | .TypeScript => "TypeScript"
  | .Java => "Java"
  | .C => "C"
  | .Cpp => "C++"
  | .Go => "Go"
  | .CSharp => "C#"
  | .Php => "PHP"
  | .Ruby => "Ruby"
  | .Swift => "Swift"
  | .Kotlin => "Kotlin"
  | .Scala => "Scala"
  | .Haskell => "Haskell"
  | .Lua => "Lua"
  | .Perl => "Perl"
  | .R => "R"
  | .Bash => "Bash"
  | .PowerShell => "PowerShell"
  | .Html => "HTML"
  | .Css => "CSS"
  | .Sql => "SQL"
  | .Json => "JSON"
  | .Yaml => "YAML"
  | .Toml => "TOML"
  | .Xml => "XML"

/-- The alias strings accepted for each tag by language_from_string (utils.rs,
the arms of the match). -/
def language_aliases (language : Language) : List String :=
  match language with
  | .Python => ["python", "py"]
  | .Rust => ["rust", "rs"]
  | .JavaScript => ["javascript", "js"]
  | .TypeScript => ["typescript", "ts"]
  | .Java => ["java"]
  | .C => ["c"]
  | .Cpp => ["cpp", "c++", "cxx"]
  | .Go => ["go", "golang"]
  | .CSharp => ["csharp", "c#", "cs"]
  | .Php => ["php"]
  | .Ruby => ["ruby", "rb"]
  | .Swift => ["swift"]
  | .Kotlin => ["kotlin", "kt"]
  | .Scala => ["scala"]
  | .Haskell => ["haskell", "hs"]
  | .Lua => ["lua"]
  | .Perl => ["perl", "pl"]
  | .R => ["r"]
  | .Bash => ["bash", "sh"]
  | .PowerShell => ["powershell", "ps1"]
  | .Html => ["html"]
  | .Css => ["css"]
  | .Sql => ["sql"]
  | .Json => ["json"]
  | .Yaml => ["yaml", "yml"]
  | .Toml => ["toml"]
  | .Xml => ["xml"]

/-- Debug formatting of a language tag as the Rust Debug derive prints it. -/
def language_debug_string (language : Language) : String :=
  match language with
  | .Python => "Python"
  | .Rust => "Rust"
  | .JavaScript => "JavaScript"
  | .TypeScript => "TypeScript"
  | .Java => "Java"
  | .C => "C"
  | .Cpp => "Cpp"
  | .Go => "Go"
  | .CSharp => "CSharp"
  | .Php => "Php"
  | .Ruby => "Ruby"
  | .Swift => "Swift"
  | .Kotlin => "Kotlin"
  | .Scala => "Scala"
  | .Haskell => "Haskell"
  | .Lua => "Lua"
  | .Perl => "Perl"
  | .R => "R"
  | .Bash => "Bash"
  | .PowerShell => "PowerShell"
  | .Html => "Html"
  | .Css => "Css"
  | .Sql => "Sql"
  | .Json => "Json"
  | .Yaml => "Yaml"
  | .Toml => "Toml"
  | .Xml => "Xml"

/-- The extension table of detect_language_by_extension (languages.rs); the
second arm for the capital letter r is kept although the input was already
lowercased, exactly as in the source. -/
def ext_language (ext : String) : Option Language :=
  match ext with
  | "py" | "pyw" | "pyi" => some .Python
  | "rs" => some .Rust
  | "js" | "mjs" | "cjs" => some .JavaScript
  | "ts" | "mts" | "cts" => some .TypeScript
  | "java" => some .Java
  | "c" | "h" => some .C
  | "cpp" | "cc" | "cxx" | "c++" | "hpp" | "hh" | "hxx" | "h++" => some .Cpp
  | "go" => some .Go
  | "cs" => some .CSharp
  | "php" | "phtml" | "php3" | "php4" | "php5" | "phps" => some .Php
  | "rb" | "rbw" => some .Ruby
  | "swift" => some .Swift
  | "kt" | "kts" => some .Kotlin
  | "scala" | "sc" => some .Scala
  | "hs" | "lhs" => some .Haskell
  | "lua" => some .Lua
  | "pl" | "pm" | "t" | "pod" => some .Perl
  | "r" | "R" => some .R
  | "sh" | "bash" | "zsh" | "fish" => some .Bash
  | "ps1" | "psm1" | "psd1" => some .PowerShell
  | "html" | "htm" | "xhtml" => some .Html
  | "css" => some .Css
  | "sql" => some .Sql
  | "json" => some .Json
  | "yaml" | "yml" => some .Yaml
  | "toml" => some .Toml
  | "xml" | "xsd" | "xsl" | "xslt" => some .Xml
  | _ => none

/-- Detect a language from the lowercased file extension (languages.rs,
detect_language_by_extension). -/
def detect_language_by_extension (file_path : String) : Option Language :=
  match path_extension file_path with
  | none => none
  | some ext => ext_language (rustToLowercase ext)

/-- First line of a string content, modelling str::lines().next(): none on
empty input, otherwise the text before the first newline with a trailing
carriage return stripped. -/
def first_line (content : String) : Option String :=
  if content.data.isEmpty then none
  else
    let l := content.data.takeWhile (fun c => c != '\n')
    let l := if l.getLast? = some '\r' then l.dropLast else l
    some (String.mk l)

/-- Detect a language from a shebang line (languages.rs,
detect_language_by_shebang). -/
def detect_language_by_shebang (content : String) : Option Language :=
  match first_line content with
  | none => none
  | some fl =>
    if !startsWithChars fl.data ['#', '!'] then none
    else
      let shebang := rustToLowercase fl
      if strContains shebang "python" then some .Python
      else if strContains shebang "node" then some .JavaScript
      else if strContains shebang "bash" || strContains shebang "/bin/sh" then some .Bash
      else if strContains shebang "ruby" then some .Ruby
      else if strContains shebang "perl" then some .Perl
      else if strContains shebang "php" then some .Php
      else none

/-- Detect a language from simple content heuristics (languages.rs,
detect_language_by_content). -/
def detect_language_by_content (content : String) : Option Language :=
  let content_lower := rustToLowercase content
  if strContains content_lower "def " && strContains content_lower "import " then some .Python
  else if strContains content_lower "fn " && strContains content_lower "use " then some .Rust
  else if strContains content_lower "function " && strContains content_lower "var " then some .JavaScript
  else if strContains content_lower "public class " && strContains content_lower "import " then some .Java
  else if strContains content_lower "#include" && strContains content_lower "int main" then some .C
  else none

/-- Combined language detection: extension, then shebang, then content
heuristics, first match wins (languages.rs, detect_language). -/
def detect_language (file_path : String) (content : Option String) : Option Language :=
  match detect_language_by_extension file_path with
  | some lang => some lang
  | none =>
    match content with
    | some c =>
      match detect_language_by_shebang c with
      | some lang => some lang
      | none => detect_language_by_content c
    | none => none

/-- The allow-listed construct node kinds per language (languages.rs,
get_supported_node_types). -/
def get_supported_node_types (language : Language) : List String :=
  match language with
  | .Python =>
      ["function_definition", "class_definition", "import_statement",
       "import_from_statement", "assignment", "decorated_definition"]
  | .Rust =>
      ["function_item", "struct_item", "enum_item", "impl_item", "trait_item",
       "mod_item", "use_declaration", "const_item", "static_item"]
  | .JavaScript =>
      ["function_declaration", "function_expression", "arrow_function",
       "class_declaration", "method_definition", "variable_declaration",
       "import_statement", "export_statement"]
  | .TypeScript =>
      ["function_declaration", "function_expression", "arrow_function",
       "class_declaration", "interface_declaration", "type_alias_declaration",
       "method_definition", "variable_declaration", "import_statement",
       "export_statement"]
  | .Java =>
      ["class_declaration", "interface_declaration", "method_declaration",
       "constructor_declaration", "field_declaration", "import_declaration",
       "package_declaration"]
  | .C =>
      ["function_definition", "declaration", "struct_specifier",
       "union_specifier", "enum_specifier", "preproc_include", "preproc_define"]
  | .Cpp =>
      ["function_definition", "declaration", "class_specifier",
       "struct_specifier", "union_specifier", "enum_specifier",
       "namespace_definition", "preproc_include", "preproc_define"]
  | .Go =>
      ["function_declaration", "method_declaration", "type_declaration",
       "var_declaration", "const_declaration", "import_declaration",
       "package_clause"]
  | _ => []

/-- The set of languages for which a tree-sitter grammar is compiled in
(languages.rs, get_tree_sitter_language with the eight grammar features
enabled). -/
def tree_sitter_bound (language : Language) : Bool :=
  match language with
  | .Python | .Rust | .JavaScript | .TypeScript | .Java | .C | .Cpp | .Go => true
  | _ => false

/-- Obtain the grammar binding for a language tag, or an UnsupportedLanguage
error (languages.rs, get_tree_sitter_language); the binding itself is
identified with the tag. -/
def get_tree_sitter_language (language : Language) : Except Error Language :=
  if tree_sitter_bound language then .ok language
  else .error (.UnsupportedLanguage (language_debug_string language))

/-- A concrete syntax-tree node as exposed by the external grammar engine:
a kind string, byte span, zero-based row span, and ordered children. Byte
offsets are modelled as character offsets, which agree for ASCII sources. -/
inductive TSNode where
  | mk (kind : String) (start_byte : Nat) (end_byte : Nat)
       (start_row : Nat) (end_row : Nat) (children : List TSNode)

/-- The kind string of a node. -/
def TSNode.kind : TSNode → String
  | .mk k _ _ _ _ _ => k

/-- The starting byte offset of a node. -/
def TSNode.start_byte : TSNode → Nat
  | .mk _ sb _ _ _ _ => sb

/-- The ending byte offset of a node. -/
def TSNode.end_byte : TSNode → Nat
  | .mk _ _ eb _ _ _ => eb

/-- The ordered children of a node. -/
def TSNode.children : TSNode → List TSNode
  | .mk _ _ _ _ _ ch => ch

/-- A parsed code construct (lib.rs, struct CodeConstruct). The parent field
holds a copy of the nearest enclosing construct, as in the source where it is
a cloned box; the annotations list of the metadata is the annos field. -/
inductive CodeConstruct where
  | mk (node_type : String) (name : Option String) (source_code : String)
       (start_line : Nat) (end_line : Nat) (start_byte : Nat) (end_byte : Nat)
       (parent : Option CodeConstruct) (children : List CodeConstruct)
       (metadata : ConstructMetadata)

/-- The node kind of a construct. -/
def CodeConstruct.node_type : CodeConstruct → String
  | .mk nt _ _ _ _ _ _ _ _ _ => nt

/-- The optional display name of a construct. -/
def CodeConstruct.name : CodeConstruct → Option String
  | .mk _ n _ _ _ _ _ _ _ _ => n

/-- The verbatim source text of a construct. -/
def CodeConstruct.source_code : CodeConstruct → String
  | .mk _ _ sc _ _ _ _ _ _ _ => sc

/-- The one-based starting line of a construct. -/
def CodeConstruct.start_line : CodeConstruct → Nat
  | .mk _ _ _ sl _ _ _ _ _ _ => sl

/-- The one-based ending line of a construct. -/
def CodeConstruct.end_line : CodeConstruct → Nat
  | .mk _ _ _ _ el _ _ _ _ _ => el

/-- The starting byte offset of a construct. -/
def CodeConstruct.start_byte : CodeConstruct → Nat
  | .mk _ _ _ _ _ sb _ _ _ _ => sb

/-- The ending byte offset of a construct. -/
def CodeConstruct.end_byte : CodeConstruct → Nat
  | .mk _ _ _ _ _ _ eb _ _ _ => eb

/-- The reference to the nearest enclosing construct, when any. -/
def CodeConstruct.parent : CodeConstruct → Option CodeConstruct
  | .mk _ _ _ _ _ _ _ p _ _ => p

/-- The directly nested constructs. -/
def CodeConstruct.children : CodeConstruct → List CodeConstruct
  | .mk _ _ _ _ _ _ _ _ ch _ => ch

/-- Replace the children list of a construct. -/
def CodeConstruct.withChildren : CodeConstruct → List CodeConstruct → CodeConstruct
  | .mk nt n sc sl el sb eb p _ md, ch => .mk nt n sc sl el sb eb p ch md

/-- Slice a source string between two byte offsets, as the Rust code slices
source text with byte ranges (character offsets in this model). -/
def sliceBytes (source : String) (sb eb : Nat) : String :=
  String.mk ((source.data.drop sb).take (eb - sb))

/-- Metadata extraction (parser.rs, extract_metadata): every field is left
empty. -/
def extract_metadata (_node : TSNode) (_source : String) (_language : Language) :
    ConstructMetadata :=
  { visibility := none, modifiers := [], parameters := [], return_type := none,
    inheritance := [], annos := [], documentation := none }

/-- Scan direct children for the first one whose kind is identifier or name
and slice its text (parser.rs, extract_construct_name). -/
def extract_construct_name_from (source : String) : List TSNode → Option String
  | [] => none
  | .mk k sb eb _ _ _ :: rest =>
    if k = "identifier" ∨ k = "name" then some (sliceBytes source sb eb)
    else extract_construct_name_from source rest

/-- Best-effort name of a construct node (parser.rs, extract_construct_name). -/
def extract_construct_name (node : TSNode) (source : String) : Option String :=
  extract_construct_name_from source node.children

/-- Materialize a construct from a node (parser.rs,
create_code_construct_with_parent): capture span, source slice, best-effort
name, the given parent reference, and an empty children list to be filled in
by the caller; rows are converted to one-based lines. -/
def create_code_construct_with_parent (node : TSNode) (source : String)
    (language : Language) (parent_construct : Option CodeConstruct) : CodeConstruct :=
  match node with
  | .mk kind sb eb sr er ch =>
    CodeConstruct.mk kind
      (extract_construct_name (.mk kind sb eb sr er ch) source)
      (sliceBytes source sb eb)
      (sr + 1) (er + 1) sb eb
      parent_construct []
      (extract_metadata (.mk kind sb eb sr er ch) source language)

mutual

/-- Recursive hierarchical extraction (parser.rs,
extract_constructs_hierarchical): an allow-listed node becomes a construct
whose children are extracted with it as the enclosing context; any other node
is transparent. The returned list is what the Rust code appends to the output
vector. -/
def extract_constructs_hierarchical (node : TSNode) (source : String)
    (language : Language) (parent_construct : Option CodeConstruct) :
    List CodeConstruct :=
  match node with
  | .mk kind sb eb sr er ch =>
    if (get_supported_node_types language).contains kind then
      let construct :=
        create_code_construct_with_parent (.mk kind sb eb sr er ch) source
          language parent_construct
      let child_constructs := extract_hierarchical_children ch source language (some construct)
      [construct.withChildren child_constructs]
    else
      extract_hierarchical_children ch source language parent_construct

/-- Extraction over a child list, in order (the loops over node.child(i) in
extract_constructs_hierarchical). -/
def extract_hierarchical_children (nodes : List TSNode) (source : String)
    (language : Language) (parent_construct : Option CodeConstruct) :
    List CodeConstruct :=
  match nodes with
  | [] => []
  | n :: ns =>
    extract_constructs_hierarchical n source language parent_construct ++
      extract_hierarchical_children ns source language parent_construct

end

mutual

/-- Flatten hierarchical constructs into a single vector in preorder,
preserving relationships (parser.rs, flatten_constructs). -/
def flatten_constructs : List CodeConstruct → List CodeConstruct
  | [] => []
  | c :: rest => flatten_one c ++ flatten_constructs rest

/-- The loop body of flatten_constructs: emit the construct, then its
flattened children. -/
def flatten_one : CodeConstruct → List CodeConstruct
  | .mk nt n sc sl el sb eb p ch md =>
    CodeConstruct.mk nt n sc sl el sb eb p ch md :: flatten_constructs ch

end

/-- Extract all constructs of a syntax tree: build the hierarchy from the
root, then flatten it (parser.rs, extract_constructs); the tree is identified
with its root node. -/
def extract_constructs (tree : TSNode) (source : String) (language : Language) :
    List CodeConstruct :=
  flatten_constructs (extract_constructs_hierarchical tree source language none)

mutual

/-- Count the allow-listed nodes of a tree. -/
def countAllowedNodes (language : Language) : TSNode → Nat
  | .mk kind _ _ _ _ ch =>
    (if (get_supported_node_types language).contains kind then 1 else 0) +
      countAllowedNodesList language ch

/-- Count the allow-listed nodes of a forest. -/
def countAllowedNodesList (language : Language) : List TSNode → Nat
  | [] => 0
  | n :: ns => countAllowedNodes language n + countAllowedNodesList language ns

end

/-- A successfully parsed file (lib.rs, struct ParsedFile); the retained
syntax-tree handle is the syn_tree field. -/
structure ParsedFile where
  file_path : String
  relative_path : String
  language : Language
  constructs : List CodeConstruct
  syn_tree : Option TSNode
  file_size_bytes : Nat

/-- A compiled name matcher provided by the external regex engine. -/
def NameMatcher : Type := String → Bool

/-- The external regex engine: compilation returns a matcher or fails on a
syntactically invalid pattern, modelling Regex::new. -/
structure RegexEngine where
  compile : String → Option NameMatcher

/-- The push-if-matching step shared by the search loops (search.rs): a
construct is emitted when its node type equals the requested one and, when a
name matcher is present, its name exists and matches. -/
def construct_match_entry (node_type : String) (regex : Option NameMatcher)
    (c : CodeConstruct) : List CodeConstruct :=
  if c.node_type = node_type then
    match regex with
    | some r =>
      match c.name with
      | some n => if r n then [c] else []
      | none => []
    | none => [c]
  else []

mutual

/-- Recursive search through the children of one construct (search.rs,
search_in_children). -/
def search_in_children (construct : CodeConstruct) (node_type : String)
    (regex : Option NameMatcher) : List CodeConstruct :=
  match construct with
  | .mk _ _ _ _ _ _ _ _ ch _ => search_constructs_list ch node_type regex

/-- The search loop over a construct list: emit each match, then search its
children recursively (the loop bodies of search_by_node_type and
search_in_children in search.rs). -/
def search_constructs_list (cs : List CodeConstruct) (node_type : String)
    (regex : Option NameMatcher) : List CodeConstruct :=
  match cs with
  | [] => []
  | c :: rest =>
    construct_match_entry node_type regex c ++
      search_in_children c node_type regex ++
      search_constructs_list rest node_type regex

end

/-- Search a parsed file for constructs of one node type, optionally filtered
by a name pattern (search.rs, search_by_node_type); an invalid pattern makes
the function return an empty vector. -/
def search_by_node_type (engine : RegexEngine) (parsed_file : ParsedFile)
    (node_type : String) (name_pattern : Option String) : List CodeConstruct :=
  match name_pattern with
  | some pattern =>
    match engine.compile pattern with
    | some r => search_constructs_list parsed_file.constructs node_type (some r)
    | none => []
  | none => search_constructs_list parsed_file.constructs node_type none

/-- The push-if-matching step of the multi-type search loops (search.rs):
membership of the node type in the requested list replaces equality. -/
def construct_match_entry_multiple (node_types : List String)
    (regex : Option NameMatcher) (c : CodeConstruct) : List CodeConstruct :=
  if node_types.contains c.node_type then
    match regex with
    | some r =>
      match c.name with
      | some n => if r n then [c] else []
      | none => []
    | none => [c]
  else []

mutual

/-- Recursive multi-type search through the children of one construct
(search.rs, search_in_children_multiple). -/
def search_in_children_multiple (construct : CodeConstruct)
    (node_types : List String) (regex : Option NameMatcher) : List CodeConstruct :=
  match construct with
  | .mk _ _ _ _ _ _ _ _ ch _ => search_constructs_list_multiple ch node_types regex

/-- The multi-type search loop over a construct list (the loop bodies of
search_by_multiple_node_types and search_in_children_multiple in search.rs). -/
def search_constructs_list_multiple (cs : List CodeConstruct)
    (node_types : List String) (regex : Option NameMatcher) : List CodeConstruct :=
  match cs with
  | [] => []
  | c :: rest =>
    construct_match_entry_multiple node_types regex c ++
      search_in_children_multiple c node_types regex ++
      search_constructs_list_multiple rest node_types regex

end

/-- Search a parsed file for constructs matching any of the given node types
(search.rs, search_by_multiple_node_types); an invalid pattern makes the
function return an empty vector. -/
def search_by_multiple_node_types (engine : RegexEngine) (parsed_file : ParsedFile)
    (node_types : List String) (name_pattern : Option String) : List CodeConstruct :=
  match name_pattern with
  | some pattern =>
    match engine.compile pattern with
    | some r => search_constructs_list_multiple parsed_file.constructs node_types (some r)
    | none => []
  | none => search_constructs_list_multiple parsed_file.constructs node_types none

/-- Parsing options (lib.rs, struct ParseOptions). The include_syn_tree field
models the include_syntax_tree flag that parse_files_parallel reads from the
options when calling parse_file. -/
structure ParseOptions where
  max_concurrent_files : Nat
  include_hidden_files : Bool
  max_file_size_mb : Nat
  recursive : Bool
  ignore_patterns : List String
  language_detection : LanguageDetection
  enable_caching : Bool
  thread_pool_size : Option Nat
  include_syn_tree : Bool

/-- One entry produced by the external directory walker: a path, whether it
is a directory, and the size reported by its metadata when readable. -/
structure WalkEntry where
  path : String
  isDir : Bool
  metadata : Option Nat
deriving DecidableEq

/-- The external world a traversal runs against: path existence, the walker
(root path and recursion flag to entry stream), file reading, and the grammar
engine turning content into a syntax tree for a bound language. -/
structure World where
  pathExists : String → Bool
  walkDir : String → Bool → List (Except String WalkEntry)
  read : String → Except String String
  parseTree : Language → String → Option TSNode

/-- Whether a file name starts with a dot (parser.rs, is_hidden_file). -/
def is_hidden_file (path : String) : Bool :=
  match path_file_name path with
  | some nm => startsWithChars nm.data ['.']
  | none => false

/-- Whether a path contains any of the ignore patterns as a substring
(parser.rs, should_ignore_file). -/
def should_ignore_file (path : String) (ignore_patterns : List String) : Bool :=
  ignore_patterns.any (fun pattern => strContains path pattern)

/-- The size guard of collect_files (parser.rs lines 291 to 297): it fires
only when the metadata is readable and the byte size divided by 1024 * 1024
exceeds the cap; unreadable metadata never fires it. -/
def size_cap_fires (metadata : Option Nat) (max_file_size_mb : Nat) : Bool :=
  match metadata with
  | some len => decide (len / (1024 * 1024) > max_file_size_mb)
  | none => false

/-- Collect the files to parse from the walker output (parser.rs,
collect_files): a walker error aborts the whole collection; directories,
hidden files, ignored paths and files on which the size guard fires are
skipped; a file is kept only when an extension-detected language exists. -/
def collect_files (entries : List (Except String WalkEntry))
    (options : ParseOptions) : Except Error (List String) :=
  match entries with
  | [] => .ok []
  | .error e :: _ => .error (.Io e)
  | .ok entry :: rest =>
    if entry.isDir then collect_files rest options
    else if !options.include_hidden_files && is_hidden_file entry.path then
      collect_files rest options
    else if should_ignore_file entry.path options.ignore_patterns then
      collect_files rest options
    else if size_cap_fires entry.metadata options.max_file_size_mb then
      collect_files rest options
    else if (detect_language_by_extension entry.path).isSome then
      (collect_files rest options).map (fun files => entry.path :: files)
    else
      collect_files rest options

/-- Parse a single file (parser.rs, parse_file): read the content, look up
the grammar, parse, extract constructs, and package the ParsedFile; a read
failure is an Io error, a missing grammar an UnsupportedLanguage error, and a
grammar failure a Parse error. -/
def parse_file (w : World) (file_path : String) (language : Language)
    (include_tree : Bool) : Except Error ParsedFile :=
  match w.read file_path with
  | .error e => .error (.Io e)
  | .ok content =>
    match get_tree_sitter_language language with
    | .error e => .error e
    | .ok _ =>
      match w.parseTree language content with
      | none => .error (.Parse "Failed to parse file")
      | some tree =>
        .ok { file_path := file_path,
              relative_path := (path_file_name file_path).getD "",
              language := language,
              constructs := extract_constructs tree content language,
              syn_tree := if include_tree then some tree else none,
              file_size_bytes := content.utf8ByteSize }

/-- Language detection as performed inside a parallel parse task (parser.rs,
parse_files_parallel): by extension, or combined detection on the file
content when it can be read. -/
def task_detect_language (w : World) (options : ParseOptions) (path : String) :
    Option Language :=
  match options.language_detection with
  | .ByExtension => detect_language_by_extension path
  | .Combined =>
    match w.read path with
    | .ok content => detect_language path (some content)
    | .error _ => detect_language_by_extension path
  | _ => detect_language_by_extension path

/-- One parallel parse task (the async block of parse_files_parallel in
parser.rs): no detected language yields an UnsupportedLanguage file error; a
failed parser lookup yields a ParseError file error; any parse_file failure,
including a read failure, is wrapped as a ParseError file error carrying the
rendered message. -/
def parse_single_task (w : World) (options : ParseOptions) (path : String) :
    Except FileError ParsedFile :=
  match task_detect_language w options path with
  | some lang =>
    match get_tree_sitter_language lang with
    | .error _ =>
      .error { file_path := path, error_type := .ParseError,
               message := "Failed to get a suitable parser" }
    | .ok _ =>
      match parse_file w path lang options.include_syn_tree with
      | .ok parsed => .ok parsed
      | .error e =>
        .error { file_path := path, error_type := .ParseError,
                 message := e.msgString }
  | none =>
    .error { file_path := path, error_type := .UnsupportedLanguage,
             message := "Could not detect language" }

/-- Partition a list into consecutive chunks, modelling slice::chunks, with a
fuel argument making the recursion structural; a chunk size below one is
clamped to one, and the call sites pass a positive size and fuel equal to the
list length. -/
def chunkListFuel {α : Type} (chunk_size : Nat) : Nat → List α → List (List α)
  | _, [] => []
  | 0, _ :: _ => []
  | fuel + 1, x :: xs =>
    (x :: xs).take (max 1 chunk_size) ::
      chunkListFuel chunk_size fuel ((x :: xs).drop (max 1 chunk_size))

/-- Partition a list into consecutive chunks of the given size, modelling
slice::chunks for a positive chunk size. -/
def chunkList {α : Type} (chunk_size : Nat) (l : List α) : List (List α) :=
  chunkListFuel chunk_size l.length l

/-- The batches of a parallel traversal (parser.rs, parse_files_parallel):
the chunk size is the file count divided by the concurrency bound, with a
minimum of one; each batch is launched together and fully awaited before the
next batch starts. -/
def parallel_batches (files : List String) (options : ParseOptions) :
    List (List String) :=
  chunkList (max 1 (files.length / options.max_concurrent_files)) files

/-- Partition task outcomes into parsed files and file errors in submission
order (the aggregation loop of parse_files_parallel in parser.rs). -/
def split_results (rs : List (Except FileError ParsedFile)) :
    List ParsedFile × List FileError :=
  match rs with
  | [] => ([], [])
  | .ok p :: rest =>
    let r := split_results rest
    (p :: r.1, r.2)
  | .error e :: rest =>
    let r := split_results rest
    (r.1, e :: r.2)

/-- Parse a list of files in sequential batches (parser.rs,
parse_files_parallel): every batch runs one task per file, the batch is fully
awaited, and task outcomes are appended to the success and error lists in
submission order. -/
def parse_files_parallel (w : World) (files : List String)
    (options : ParseOptions) : List ParsedFile × List FileError :=
  split_results
    ((parallel_batches files options).flatMap
      (fun chunk => chunk.map (parse_single_task w options)))

/-- The aggregated result of a directory traversal (lib.rs, struct
ParsedProject); the per-language histogram is modelled as a counting
function. -/
structure ParsedProject where
  root_path : String
  files : List ParsedFile
  total_files_processed : Nat
  language_distribution : Language → Nat
  error_files : List FileError

/-- Parse a directory (parser.rs, parse_directory): a missing root is a hard
Io failure; otherwise the walker output is collected, the files are parsed in
parallel, and the project result aggregates successes, the per-language
histogram and the error list. -/
def parse_directory (w : World) (dir_path : String) (options : ParseOptions) :
    Except Error ParsedProject :=
  if w.pathExists dir_path then
    match collect_files (w.walkDir dir_path options.recursive) options with
    | .error e => .error e
    | .ok files_to_parse =>
      let r := parse_files_parallel w files_to_parse options
      .ok { root_path := dir_path,
            files := r.1,
            total_files_processed := r.1.length,
            language_distribution := fun l => (r.1.filter (fun f => f.language == l)).length,
            error_files := r.2 }
  else .error (.Io ("Directory does not exist: " ++ dir_path))

/-- Empty construct metadata, as produced by extract_metadata. -/
def metaEmpty : ConstructMetadata :=
  { visibility := none, modifiers := [], parameters := [], return_type := none,
    inheritance := [], annos := [], documentation := none }

/-- A regex engine on which every pattern fails to compile. -/
def badEngine : RegexEngine := { compile := fun _ => none }

/-- A regex engine on which every pattern compiles to a matcher accepting
every name. -/
def allEngine : RegexEngine := { compile := fun _ => some (fun _ => true) }

/-- A parsed file with no constructs. -/
def pf0 : ParsedFile :=
  { file_path := "f.py", relative_path := "f.py", language := .Python,
    constructs := [], syn_tree := none, file_size_bytes := 0 }

/-- A method construct nested below a class construct. -/
def cDup : CodeConstruct :=
  .mk "function_definition" (some "m") "m" 2 2 2 3 none [] metaEmpty

/-- A class construct holding cDup as its only child. -/
def pDup : CodeConstruct :=
  .mk "class_definition" (some "A") "ABm" 1 2 0 3 none [cDup] metaEmpty

/-- A parsed file whose construct list is the flattening of the hierarchy
rooted at pDup, as the parsing pipeline would store it. -/
def fileDup : ParsedFile :=
  { file_path := "dup.py", relative_path := "dup.py", language := .Python,
    constructs := flatten_constructs [pDup], syn_tree := none,
    file_size_bytes := 3 }

/-- A syntax tree for two classes that each define a method of the same name:
the module node is transparent, each class has an identifier child naming it
and a method child, and both methods carry the same identifier span. The
source text has the class names at offsets zero and one and the method name
at offset two. -/
def exIdA : TSNode := .mk "identifier" 0 1 0 0 []

/-- Identifier node of the second class. -/
def exIdB : TSNode := .mk "identifier" 1 2 1 1 []

/-- Identifier node shared by both method definitions. -/
def exIdM : TSNode := .mk "identifier" 2 3 0 0 []

/-- The method node, structurally identical under both classes. -/
def exMethod : TSNode := .mk "function_definition" 2 3 0 0 [exIdM]

/-- The first class node. -/
def exClassA : TSNode := .mk "class_definition" 0 3 0 0 [exIdA, exMethod]

/-- The second class node. -/
def exClassB : TSNode := .mk "class_definition" 0 3 1 1 [exIdB, exMethod]

/-- The module root holding the two classes. -/
def exRoot : TSNode := .mk "module" 0 3 0 1 [exClassA, exClassB]

/-- The source text the example tree spans point into. -/
def exSource : String := "ABm"

/-- Baseline options: concurrency four, no hidden files, ten megabyte cap,
recursive, no ignore patterns, detection by extension. -/
def optsBase : ParseOptions :=
  { max_concurrent_files := 4, include_hidden_files := false,
    max_file_size_mb := 10, recursive := true, ignore_patterns := [],
    language_detection := .ByExtension, enable_caching := true,
    thread_pool_size := none, include_syn_tree := false }

/-- Options with a concurrency bound of two. -/
def optsMcf2 : ParseOptions :=
  { optsBase with max_concurrent_files := 2 }

/-- A directory with one detectable file and one file of unrecognized
extension; reads succeed and the grammar engine yields a bare module node. -/
def wOkUnsup : World :=
  { pathExists := fun _ => true,
    walkDir := fun _ _ =>
      [.ok { path := "proj/a.py", isDir := false, metadata := some 10 },
       .ok { path := "proj/b.xyz", isDir := false, metadata := some 10 }],
    read := fun _ => .ok "x",
    parseTree := fun _ _ => some (.mk "module" 0 1 0 0 []) }

/-- A second directory of the same shape with different paths and content. -/
def wOkUnsup2 : World :=
  { pathExists := fun _ => true,
    walkDir := fun _ _ =>
      [.ok { path := "q/c.py", isDir := false, metadata := none },
       .ok { path := "q/d.bin", isDir := false, metadata := some 5 }],
    read := fun _ => .ok "y",
    parseTree := fun _ _ => some (.mk "module" 0 1 0 0 []) }

/-- A world on which every file read fails. -/
def wReadFail : World :=
  { pathExists := fun _ => true,
    walkDir := fun _ _ => [.ok { path := "proj/a.py", isDir := false, metadata := none }],
    read := fun _ => .error "boom",
    parseTree := fun _ _ => none }

/-- A world whose walker yields an error entry although the root exists. -/
def wWalkErr : World :=
  { pathExists := fun _ => true,
    walkDir := fun _ _ => [.error "walk boom"],
    read := fun _ => .ok "x",
    parseTree := fun _ _ => none }

/-- A world whose root path does not exist. -/
def wNoRoot : World :=
  { pathExists := fun _ => false,
    walkDir := fun _ _ => [],
    read := fun _ => .error "missing",
    parseTree := fun _ _ => none }

/-- Nine file paths, used to exhibit the batching arithmetic. -/
def files9 : List String :=
  ["f1", "f2", "f3", "f4", "f5", "f6", "f7", "f8", "f9"]

/-- A small detectable file entry with readable metadata. -/
def entryPy : WalkEntry := { path := "a.py", isDir := false, metadata := some 123 }

/-- The single-type match test written as a proposition: the node type is the
requested one and, when a matcher is present, the name exists and matches. -/
def single_match_ok (node_type : String) (regex : Option NameMatcher)
    (c : CodeConstruct) : Prop :=
  c.node_type = node_type ∧
    (match regex with
     | some r => ∃ n, c.name = some n ∧ r n = true
     | none => True)

/-- The multi-type match test written as a proposition. -/
def multi_match_ok (node_types : List String) (regex : Option NameMatcher)
    (c : CodeConstruct) : Prop :=
  node_types.contains c.node_type = true ∧
    (match regex with
     | some r => ∃ n, c.name = some n ∧ r n = true
     | none => True)

theorem mem_construct_match_entry (node_type : String) (regex : Option NameMatcher)
    (c0 c : CodeConstruct) :
    c ∈ construct_match_entry node_type regex c0 ↔
      (c = c0 ∧ single_match_ok node_type regex c0) := by
  unfold construct_match_entry single_match_ok
  by_cases hk : c0.node_type = node_type
  · cases regex with
    | none => simp [hk]
    | some r =>
      cases hn : c0.name with
      | none => simp [hk, hn]
      | some nm =>
        by_cases hr : r nm = true
        · simp [hk, hn, hr]
        · simp [hk, hn, hr]
  · simp [hk]

theorem mem_construct_match_entry_multiple (node_types : List String)
    (regex : Option NameMatcher) (c0 c : CodeConstruct) :
    c ∈ construct_match_entry_multiple node_types regex c0 ↔
      (c = c0 ∧ multi_match_ok node_types regex c0) := by
  unfold construct_match_entry_multiple multi_match_ok
  by_cases hk : node_types.contains c0.node_type = true
  · cases regex with
    | none => simp [hk]; tauto
    | some r =>
      cases hn : c0.name with
      | none => simp [hk, hn]
      | some nm =>
        by_cases hr : r nm = true
        · simp [hk, hn, hr]; tauto
        · simp [hk, hn, hr]
  · have hk2 : ¬ (c0.node_type ∈ node_types) := by simpa using hk
    simp [hk, hk2]

mutual

theorem mem_search_in_children_iff (construct : CodeConstruct) (node_type : String)
    (regex : Option NameMatcher) (c : CodeConstruct) :
    c ∈ search_in_children construct node_type regex ↔
      (c ∈ flatten_constructs construct.children ∧ single_match_ok node_type regex c) := by
  cases construct with
  | mk nt n sc sl el sb eb p ch md =>
    have h := mem_search_constructs_list_iff ch node_type regex c
    simpa [search_in_children, CodeConstruct.children] using h

theorem mem_search_constructs_list_iff (cs : List CodeConstruct) (node_type : String)
    (regex : Option NameMatcher) (c : CodeConstruct) :
    c ∈ search_constructs_list cs node_type regex ↔
      (c ∈ flatten_constructs cs ∧ single_match_ok node_type regex c) := by
  cases cs with
  | nil => simp [search_constructs_list, flatten_constructs]
  | cons c0 rest =>
    have h1 := mem_search_in_children_iff c0 node_type regex c
    have h2 := mem_search_constructs_list_iff rest node_type regex c
    have he : c ∈ construct_match_entry node_type regex c0 ↔
        (c = c0 ∧ single_match_ok node_type regex c) := by
      rw [mem_construct_match_entry]
      exact and_congr_right (fun h => by rw [h])
    cases c0 with
    | mk nt n sc sl el sb eb p ch md =>
      simp only [search_constructs_list, List.mem_append, h1, h2, he,
        flatten_constructs, flatten_one, List.mem_cons, CodeConstruct.children]
      tauto

end

mutual

theorem mem_search_in_children_multiple_iff (construct : CodeConstruct)
    (node_types : List String) (regex : Option NameMatcher) (c : CodeConstruct) :
    c ∈ search_in_children_multiple construct node_types regex ↔
      (c ∈ flatten_constructs construct.children ∧ multi_match_ok node_types regex c) := by
  cases construct with
  | mk nt n sc sl el sb eb p ch md =>
    have h := mem_search_constructs_list_multiple_iff ch node_types regex c
    simpa [search_in_children_multiple, CodeConstruct.children] using h

theorem mem_search_constructs_list_multiple_iff (cs : List CodeConstruct)
    (node_types : List String) (regex : Option NameMatcher) (c : CodeConstruct) :
    c ∈ search_constructs_list_multiple cs node_types regex ↔
      (c ∈ flatten_constructs cs ∧ multi_match_ok node_types regex c) := by
  cases cs with
  | nil => simp [search_constructs_list_multiple, flatten_constructs]
  | cons c0 rest =>
    have h1 := mem_search_in_children_multiple_iff c0 node_types regex c
    have h2 := mem_search_constructs_list_multiple_iff rest node_types regex c
    have he : c ∈ construct_match_entry_multiple node_types regex c0 ↔
        (c = c0 ∧ multi_match_ok node_types regex c) := by
      rw [mem_construct_match_entry_multiple]
      exact and_congr_right (fun h => by rw [h])
    cases c0 with
    | mk nt n sc sl el sb eb p ch md =>
      simp only [search_constructs_list_multiple, List.mem_append, h1, h2, he,
        flatten_constructs, flatten_one, List.mem_cons, CodeConstruct.children]
      tauto

end

/-- Claim C7: for every parsed file, node type, and syntactically invalid
name pattern, search_by_node_type returns an empty result vector rather than
an error, and so does search_by_multiple_node_types. -/
theorem invalid_pattern_returns_empty (engine : RegexEngine) (parsed_file : ParsedFile)
    (node_type : String) (node_types : List String) (pattern : String)
    (h : engine.compile pattern = none) :
    search_by_node_type engine parsed_file node_type (some pattern) = [] ∧
    search_by_multiple_node_types engine parsed_file node_types (some pattern) = [] := by
  constructor
  · simp [search_by_node_type, h]
  · simp [search_by_multiple_node_types, h]

/-- Witness for claim C7 at a concrete engine, file and pattern. -/
theorem invalid_pattern_returns_empty_witness :
    search_by_node_type badEngine pf0 "function_definition" (some "[") = [] ∧
    search_by_multiple_node_types badEngine pf0 ["function_definition"] (some "[") = [] :=
  invalid_pattern_returns_empty badEngine pf0 "function_definition"
    ["function_definition"] "[" rfl

/-- Claim C8: for every enumerated language tag, converting the canonical
string to a tag and back yields the same canonical string; conversion is
case-insensitive, so every case variant of a string maps to the same tag; and
every alias accepted by language_from_string maps to its tag. -/
theorem language_tag_round_trip :
    (∀ language : Language,
      (language_from_string (language_to_string language)).map language_to_string
        = some (language_to_string language)) ∧
    (∀ s t : String, rustToLowercase s = rustToLowercase t →
      language_from_string s = language_from_string t) ∧
    (∀ language : Language,
      (language_aliases language).all
        (fun a => language_from_string a == some language) = true) := by
  refine ⟨?_, ?_, ?_⟩
  · intro language
    cases language <;> rfl
  · intro s t h
    unfold language_from_string
    rw [h]
  · intro language
    cases language <;> rfl

/-- Witness for claim C8: an uppercase alias maps as its lowercase form. -/
theorem language_tag_round_trip_witness :
    language_from_string "RUST" = language_from_string "Rust" :=
  language_tag_round_trip.2.1 "RUST" "Rust" rfl

/-- Claim C1 as stated is false: cDup is one construct location, nested below
pDup in the flattened list of fileDup, yet the multi-type search returns it
twice — once through the children of the flattened parent entry and once as
its own flattened entry. -/
theorem search_multi_repeats_nested_match :
    search_by_multiple_node_types badEngine fileDup ["function_definition"] none
      = [cDup, cDup] := rfl

/-- Claim C1, amended: search_by_multiple_node_types returns the union of
matches across all requested kinds in the sense of membership — a construct
is in the result exactly when it occurs in the flattened view of the stored
construct list and its kind is requested — but a matching construct nested
below other stored constructs occurs once per enclosing entry plus once for
itself, so the result vector may repeat a location. -/
theorem search_multi_union_membership (engine : RegexEngine) (parsed_file : ParsedFile)
    (node_types : List String) (c : CodeConstruct) :
    c ∈ search_by_multiple_node_types engine parsed_file node_types none ↔
      (c ∈ flatten_constructs parsed_file.constructs ∧
        node_types.contains c.node_type = true) := by
  have h := mem_search_constructs_list_multiple_iff parsed_file.constructs node_types none c
  simpa [search_by_multiple_node_types, multi_match_ok] using h

/-- Claim C9: under any successfully compiled name pattern, a construct
without a name is never returned, by either search function. -/
theorem name_filter_excludes_nameless (engine : RegexEngine) (parsed_file : ParsedFile)
    (node_type : String) (node_types : List String) (pattern : String)
    (m : NameMatcher) (h : engine.compile pattern = some m) :
    (∀ c ∈ search_by_node_type engine parsed_file node_type (some pattern),
      c.name ≠ none) ∧
    (∀ c ∈ search_by_multiple_node_types engine parsed_file node_types (some pattern),
      c.name ≠ none) := by
  constructor
  · intro c hc
    rw [show search_by_node_type engine parsed_file node_type (some pattern)
          = search_constructs_list parsed_file.constructs node_type (some m) by
        simp [search_by_node_type, h]] at hc
    obtain ⟨-, -, n, hn, -⟩ := (mem_search_constructs_list_iff _ _ _ _).1 hc
    simp [hn]
  · intro c hc
    rw [show search_by_multiple_node_types engine parsed_file node_types (some pattern)
          = search_constructs_list_multiple parsed_file.constructs node_types (some m) by
        simp [search_by_multiple_node_types, h]] at hc
    obtain ⟨-, -, n, hn, -⟩ := (mem_search_constructs_list_multiple_iff _ _ _ _).1 hc
    simp [hn]

/-- Witness for claim C9: the named construct returned by a filtered search
on fileDup indeed has a name. -/
theorem name_filter_excludes_nameless_witness : CodeConstruct.name cDup ≠ none := by
  have he : search_by_node_type allEngine fileDup "function_definition" (some ".*")
      = [cDup, cDup] := rfl
  exact (name_filter_excludes_nameless allEngine fileDup "function_definition"
    ["function_definition"] ".*" (fun _ => true) rfl).1 cDup
    (he ▸ List.mem_cons_self _ _)

theorem flatten_constructs_append (a b : List CodeConstruct) :
    flatten_constructs (a ++ b) = flatten_constructs a ++ flatten_constructs b := by
  induction a with
  | nil => simp [flatten_constructs]
  | cons c rest ih => simp [flatten_constructs, ih]

mutual

theorem flatten_extract_length (source : String) (language : Language) (node : TSNode)
    (parent_construct : Option CodeConstruct) :
    (flatten_constructs
        (extract_constructs_hierarchical node source language parent_construct)).length
      = countAllowedNodes language node := by
  cases node with
  | mk kind sb eb sr er ch =>
    by_cases hk : (get_supported_node_types language).contains kind = true
    · have hk2 : kind ∈ get_supported_node_types language := by simpa using hk
      have hih := flatten_extract_children_length source language ch
        (some (create_code_construct_with_parent (.mk kind sb eb sr er ch)
          source language parent_construct))
      simp [create_code_construct_with_parent] at hih
      simp [extract_constructs_hierarchical, hk, hk2, countAllowedNodes,
        flatten_constructs, flatten_one, create_code_construct_with_parent,
        CodeConstruct.withChildren]
      omega
    · have hk2 : ¬ (kind ∈ get_supported_node_types language) := by simpa using hk
      have hih := flatten_extract_children_length source language ch parent_construct
      simp [extract_constructs_hierarchical, hk, hk2, countAllowedNodes, hih]

theorem flatten_extract_children_length (source : String) (language : Language)
    (nodes : List TSNode) (parent_construct : Option CodeConstruct) :
    (flatten_constructs
        (extract_hierarchical_children nodes source language parent_construct)).length
      = countAllowedNodesList language nodes := by
  cases nodes with
  | nil => simp [extract_hierarchical_children, flatten_constructs, countAllowedNodesList]
  | cons n ns =>
    have h1 := flatten_extract_length source language n parent_construct
    have h2 := flatten_extract_children_length source language ns parent_construct
    simp [extract_hierarchical_children, countAllowedNodesList,
      flatten_constructs_append, h1, h2]

end

/-- Claim C3: for every syntax tree, source text and language, extraction
emits exactly one flattened construct per allow-listed node of the tree,
never more; and on the concrete tree holding two structurally identical
methods under two different classes, the two emitted method constructs carry
two distinct parent references, named after their respective classes. -/
theorem flattening_exactly_one_entry_per_allowed_node :
    (∀ (tree : TSNode) (source : String) (language : Language),
      (extract_constructs tree source language).length
        = countAllowedNodes language tree) ∧
    (extract_constructs exRoot exSource .Python).map
        (fun c => (c.node_type, c.name, c.parent.bind CodeConstruct.name)) =
      [("class_definition", some "A", none),
       ("function_definition", some "m", some "A"),
       ("class_definition", some "B", none),
       ("function_definition", some "m", some "B")] := by
  constructor
  · intro tree source language
    simpa [extract_constructs] using flatten_extract_length source language tree none
  · rfl

theorem collect_files_skip_undetected (e : WalkEntry)
    (rest : List (Except String WalkEntry)) (options : ParseOptions)
    (h : detect_language_by_extension e.path = none) :
    collect_files (.ok e :: rest) options = collect_files rest options := by
  simp only [collect_files, h]
  split_ifs <;> simp_all

theorem collect_files_keep (e : WalkEntry) (rest : List (Except String WalkEntry))
    (options : ParseOptions)
    (hdir : e.isDir = false)
    (hhid : (!options.include_hidden_files && is_hidden_file e.path) = false)
    (hign : should_ignore_file e.path options.ignore_patterns = false)
    (hsize : size_cap_fires e.metadata options.max_file_size_mb = false)
    (hlang : (detect_language_by_extension e.path).isSome = true) :
    collect_files (.ok e :: rest) options
      = (collect_files rest options).map (fun files => e.path :: files) := by
  simp only [collect_files, hdir, hhid, hign, hsize, hlang]
  simp

theorem collect_files_error_of_mem (entries : List (Except String WalkEntry))
    (options : ParseOptions) (s : String)
    (h : (Except.error s : Except String WalkEntry) ∈ entries) :
    ∃ msg, collect_files entries options = .error (.Io msg) := by
  induction entries with
  | nil => simp at h
  | cons e rest ih =>
    cases e with
    | error t => exact ⟨t, rfl⟩
    | ok entry =>
      have hmem : (Except.error s : Except String WalkEntry) ∈ rest := by
        rcases List.mem_cons.mp h with h1 | h2
        · simp at h1
        · exact h2
      obtain ⟨msg, hmsg⟩ := ih hmem
      refine ⟨msg, ?_⟩
      simp only [collect_files]
      split_ifs <;> simp [hmsg, Except.map]

theorem collect_files_ok_of_all_ok (entries : List (Except String WalkEntry))
    (options : ParseOptions)
    (h : ∀ ent ∈ entries, ∃ x, ent = .ok x) :
    ∃ files, collect_files entries options = .ok files := by
  induction entries with
  | nil => exact ⟨[], rfl⟩
  | cons e rest ih =>
    obtain ⟨x, hx⟩ := h e (List.mem_cons_self _ _)
    subst hx
    obtain ⟨files, hf⟩ := ih (fun ent hent => h ent (List.mem_cons_of_mem _ hent))
    simp only [collect_files]
    split_ifs <;> simp [hf, Except.map]

theorem split_results_length (rs : List (Except FileError ParsedFile)) :
    (split_results rs).1.length + (split_results rs).2.length = rs.length := by
  induction rs with
  | nil => rfl
  | cons r rest ih =>
    cases r <;> simp [split_results] <;> omega

theorem flatMap_map_length (bs : List (List String))
    (f : String → Except FileError ParsedFile) :
    (bs.flatMap (fun chunk => chunk.map f)).length = bs.flatten.length := by
  induction bs with
  | nil => rfl
  | cons b rest ih => simp [ih]

theorem chunkListFuel_join {α : Type} (chunk_size : Nat) (fuel : Nat) :
    ∀ l : List α, l.length ≤ fuel → (chunkListFuel chunk_size fuel l).flatten = l := by
  induction fuel with
  | zero =>
    intro l hl
    cases l with
    | nil => rfl
    | cons x xs => simp at hl
  | succ f ih =>
    intro l hl
    cases l with
    | nil => rfl
    | cons x xs =>
      have hm : 1 ≤ max 1 chunk_size := le_max_left 1 chunk_size
      have hdrop : ((x :: xs).drop (max 1 chunk_size)).length ≤ f := by
        simp only [List.length_drop, List.length_cons]
        simp only [List.length_cons] at hl
        omega
      simp only [chunkListFuel, List.flatten_cons]
      rw [ih _ hdrop]
      exact List.take_append_drop _ _

theorem chunkListFuel_mem {α : Type} (chunk_size : Nat) (fuel : Nat) :
    ∀ (l : List α) (b : List α), b ∈ chunkListFuel chunk_size fuel l →
      b ≠ [] ∧ b.length ≤ max 1 chunk_size := by
  induction fuel with
  | zero =>
    intro l b hb
    cases l with
    | nil => simp [chunkListFuel] at hb
    | cons x xs => simp [chunkListFuel] at hb
  | succ f ih =>
    intro l b hb
    cases l with
    | nil => simp [chunkListFuel] at hb
    | cons x xs =>
      simp only [chunkListFuel, List.mem_cons] at hb
      rcases hb with hb | hb
      · subst hb
        constructor
        · cases hmax : max 1 chunk_size with
          | zero =>
            have := le_max_left 1 chunk_size
            omega
          | succ k => simp [hmax]
        · exact List.length_take_le _ _
      · exact ih _ _ hb

theorem parse_files_parallel_length (w : World) (files : List String)
    (options : ParseOptions) :
    (parse_files_parallel w files options).1.length
      + (parse_files_parallel w files options).2.length = files.length := by
  unfold parse_files_parallel parallel_batches chunkList
  rw [split_results_length, flatMap_map_length,
    chunkListFuel_join _ _ _ (le_refl _)]

/-- Claim C10: collect_files excludes a file through the size cap exactly
when its metadata is readable and the byte size divided by 1048576 exceeds
max_file_size_mb; consequently a file of size up to one byte below
(max_file_size_mb + 1) mebibytes is still included, and a file with
unreadable metadata is never excluded by the size cap. -/
theorem size_cap_exclusion_boundary (options : ParseOptions) (entry : WalkEntry)
    (hdir : entry.isDir = false)
    (hhid : (!options.include_hidden_files && is_hidden_file entry.path) = false)
    (hign : should_ignore_file entry.path options.ignore_patterns = false)
    (hlang : (detect_language_by_extension entry.path).isSome = true) :
    (collect_files [.ok entry] options = .ok [entry.path] ↔
      ∀ len, entry.metadata = some len → len / 1048576 ≤ options.max_file_size_mb) ∧
    (∀ len, entry.metadata = some len →
      len ≤ (options.max_file_size_mb + 1) * 1048576 - 1 →
      collect_files [.ok entry] options = .ok [entry.path]) ∧
    (entry.metadata = none → collect_files [.ok entry] options = .ok [entry.path]) := by
  have hbase : size_cap_fires entry.metadata options.max_file_size_mb = false →
      collect_files [.ok entry] options = .ok [entry.path] := by
    intro hs
    rw [collect_files_keep entry [] options hdir hhid hign hs hlang]
    rfl
  have hskip : size_cap_fires entry.metadata options.max_file_size_mb = true →
      collect_files [.ok entry] options = .ok [] := by
    intro hs
    simp only [collect_files, hdir, hhid, hign, hs]
    simp
  refine ⟨⟨?_, ?_⟩, ?_, ?_⟩
  · intro hcoll len hlen
    by_contra hgt
    push_neg at hgt
    have hs : size_cap_fires entry.metadata options.max_file_size_mb = true := by
      simp [size_cap_fires, hlen]
      omega
    rw [hskip hs] at hcoll
    simp at hcoll
  · intro hle
    apply hbase
    cases hm : entry.metadata with
    | none => simp [size_cap_fires]
    | some len =>
      have := hle len hm
      simp [size_cap_fires]
      omega
  · intro len hlen hbound
    apply hbase
    simp [size_cap_fires, hlen]
    omega
  · intro hm
    apply hbase
    simp [size_cap_fires, hm]

/-- Witness for claim C10: a small Python file with readable metadata is
collected. -/
theorem size_cap_exclusion_boundary_witness :
    collect_files [.ok entryPy] optsBase = .ok [entryPy.path] :=
  (size_cap_exclusion_boundary optsBase entryPy rfl (by decide) rfl
    (by decide)).2.1 123 rfl (by decide)

/-- Claim C2 as stated is false: a directory holding one detectable file and
one file of unrecognized extension yields one processed file but an empty
error list — the unrecognized file is dropped during collection and no
UnsupportedLanguage entry is recorded. -/
theorem unsupported_extension_file_yields_no_error_entry :
    (parse_directory wOkUnsup "proj" optsBase).toOption.map
      (fun proj => (proj.total_files_processed, proj.error_files)) = some (1, []) := rfl

/-- Claim C2, amended: parsing a directory that contains exactly one file of
a detectable language and one file with an unrecognized extension yields one
processed file and an empty error list, because the unrecognized file is
filtered out during collection and produces no error entry. -/
theorem one_supported_one_unsupported_total_and_errors
    (w : World) (dir : String) (options : ParseOptions) (e1 e2 : WalkEntry)
    (lang : Language) (content : String) (tree : TSNode)
    (hroot : w.pathExists dir = true)
    (hwalk : w.walkDir dir options.recursive = [.ok e1, .ok e2])
    (hdet : options.language_detection = .ByExtension)
    (h1dir : e1.isDir = false)
    (h1hid : (!options.include_hidden_files && is_hidden_file e1.path) = false)
    (h1ign : should_ignore_file e1.path options.ignore_patterns = false)
    (h1size : size_cap_fires e1.metadata options.max_file_size_mb = false)
    (h1lang : detect_language_by_extension e1.path = some lang)
    (hbound : tree_sitter_bound lang = true)
    (hread : w.read e1.path = .ok content)
    (htree : w.parseTree lang content = some tree)
    (h2lang : detect_language_by_extension e2.path = none) :
    (parse_directory w dir options).toOption.map
      (fun proj => (proj.total_files_processed, proj.error_files)) = some (1, []) := by
  obtain ⟨pf1, hpf1⟩ : ∃ pf1, parse_single_task w options e1.path = .ok pf1 := by
    refine ⟨{ file_path := e1.path,
              relative_path := (path_file_name e1.path).getD "",
              language := lang,
              constructs := extract_constructs tree content lang,
              syn_tree := if options.include_syn_tree then some tree else none,
              file_size_bytes := content.utf8ByteSize }, ?_⟩
    simp [parse_single_task, task_detect_language, hdet, h1lang,
      get_tree_sitter_language, hbound, parse_file, hread, htree]
  have hcoll : collect_files (w.walkDir dir options.recursive) options
      = .ok [e1.path] := by
    rw [hwalk,
      collect_files_keep e1 _ options h1dir h1hid h1ign h1size (by simp [h1lang]),
      collect_files_skip_undetected e2 _ options h2lang]
    rfl
  have hmax : max 1 (([e1.path] : List String).length / options.max_concurrent_files)
      = 1 := by
    have hle : (1 : Nat) / options.max_concurrent_files ≤ 1 := Nat.div_le_self 1 _
    simpa using Nat.max_eq_left hle
  have hbatch : parallel_batches [e1.path] options = [[e1.path]] := by
    unfold parallel_batches chunkList
    rw [hmax]
    rfl
  have hpar : parse_files_parallel w [e1.path] options = ([pf1], []) := by
    unfold parse_files_parallel
    rw [hbatch]
    simp [split_results, hpf1]
  unfold parse_directory
  rw [hroot]
  simp only [hcoll, hpar]
  rfl

/-- Witness for claim C2 (amended) at a concrete directory. -/
theorem one_supported_one_unsupported_total_and_errors_witness :
    (parse_directory wOkUnsup2 "q" optsBase).toOption.map
      (fun proj => (proj.total_files_processed, proj.error_files)) = some (1, []) :=
  one_supported_one_unsupported_total_and_errors wOkUnsup2 "q" optsBase
    { path := "q/c.py", isDir := false, metadata := none }
    { path := "q/d.bin", isDir := false, metadata := some 5 }
    .Python "y" (.mk "module" 0 1 0 0 [])
    rfl rfl rfl rfl (by decide) rfl rfl (by decide) rfl rfl rfl (by decide)

/-- Claim C4 as stated is false: a file whose read fails is recorded with
kind ParseError carrying the rendered Io message, not with kind Io. -/
theorem read_failure_tagged_parse_error :
    (parse_files_parallel wReadFail ["proj/a.py"] optsBase).2 =
      [{ file_path := "proj/a.py", error_type := .ParseError,
         message := "IO error: boom" }] := rfl

/-- Claim C4, amended: during traversal a failed file is recorded with kind
UnsupportedLanguage exactly when no language was detected; every other
failure — an unbound grammar, a grammar failure, or a read failure — is
recorded with kind ParseError. -/
theorem file_error_kind_classification (w : World) (options : ParseOptions)
    (path : String) :
    (task_detect_language w options path = none →
      parse_single_task w options path =
        .error { file_path := path, error_type := .UnsupportedLanguage,
                 message := "Could not detect language" }) ∧
    (∀ fe, parse_single_task w options path = .error fe →
      fe.error_type = .UnsupportedLanguage ∨ fe.error_type = .ParseError) ∧
    (∀ fe, parse_single_task w options path = .error fe →
      (fe.error_type = .UnsupportedLanguage ↔
        task_detect_language w options path = none)) := by
  refine ⟨?_, ?_, ?_⟩
  · intro h
    simp [parse_single_task, h]
  · intro fe hfe
    cases hd : task_detect_language w options path with
    | none =>
      simp only [parse_single_task, hd] at hfe
      injection hfe with hA
      subst hA
      left
      rfl
    | some lang =>
      simp only [parse_single_task, hd] at hfe
      cases hg : get_tree_sitter_language lang with
      | error e =>
        simp only [hg] at hfe
        injection hfe with hA
        subst hA
        right
        rfl
      | ok l =>
        simp only [hg] at hfe
        cases hp : parse_file w path lang options.include_syn_tree with
        | ok p => simp [hp] at hfe
        | error e =>
          simp only [hp] at hfe
          injection hfe with hA
          subst hA
          right
          rfl
  · intro fe hfe
    cases hd : task_detect_language w options path with
    | none =>
      simp only [parse_single_task, hd] at hfe
      injection hfe with hA
      subst hA
      simp
    | some lang =>
      simp only [parse_single_task, hd] at hfe
      cases hg : get_tree_sitter_language lang with
      | error e =>
        simp only [hg] at hfe
        injection hfe with hA
        subst hA
        simp
      | ok l =>
        simp only [hg] at hfe
        cases hp : parse_file w path lang options.include_syn_tree with
        | ok p => simp [hp] at hfe
        | error e =>
          simp only [hp] at hfe
          injection hfe with hA
          subst hA
          simp

/-- Witness for claim C4 (amended): an undetectable extension yields the
UnsupportedLanguage file error. -/
theorem file_error_kind_classification_witness :
    parse_single_task wReadFail optsBase "x.unknown" =
      .error { file_path := "x.unknown", error_type := .UnsupportedLanguage,
               message := "Could not detect language" } :=
  (file_error_kind_classification wReadFail optsBase "x.unknown").1 rfl

/-- Claim C5 as stated is false: the root directory exists, yet the walker
error entry aborts the whole call with a hard Io failure. -/
theorem walker_error_aborts_despite_existing_root :
    wWalkErr.pathExists "proj" = true ∧
    parse_directory wWalkErr "proj" optsBase = .error (.Io "walk boom") :=
  ⟨rfl, rfl⟩

/-- Claim C5, amended: parse_directory aborts with a hard Io failure when the
root does not exist and also when the walker yields an error entry during
collection; once collection succeeds, every parse-phase failure is per-file —
the call returns a project in which every collected file is accounted for
either as a parsed file or as a file error. -/
theorem parse_directory_failure_policy (w : World) (dir : String)
    (options : ParseOptions) :
    (w.pathExists dir = false →
      parse_directory w dir options
        = .error (.Io ("Directory does not exist: " ++ dir))) ∧
    (∀ s, w.pathExists dir = true →
      (Except.error s : Except String WalkEntry) ∈ w.walkDir dir options.recursive →
      ∃ msg, parse_directory w dir options = .error (.Io msg)) ∧
    (w.pathExists dir = true →
      (∀ ent ∈ w.walkDir dir options.recursive, ∃ x, ent = .ok x) →
      ∃ proj files,
        collect_files (w.walkDir dir options.recursive) options = .ok files ∧
        parse_directory w dir options = .ok proj ∧
        proj.files.length + proj.error_files.length = files.length) := by
  refine ⟨?_, ?_, ?_⟩
  · intro h
    simp [parse_directory, h]
  · intro s hroot hmem
    obtain ⟨msg, hmsg⟩ := collect_files_error_of_mem _ options s hmem
    refine ⟨msg, ?_⟩
    unfold parse_directory
    rw [hroot, hmsg]
    rfl
  · intro hroot hall
    obtain ⟨files, hf⟩ := collect_files_ok_of_all_ok _ options hall
    refine ⟨{ root_path := dir,
              files := (parse_files_parallel w files options).1,
              total_files_processed := (parse_files_parallel w files options).1.length,
              language_distribution := fun l =>
                ((parse_files_parallel w files options).1.filter
                  (fun f => f.language == l)).length,
              error_files := (parse_files_parallel w files options).2 },
            files, hf, ?_, ?_⟩
    · unfold parse_directory
      rw [hroot, hf]
      rfl
    · exact parse_files_parallel_length w files options

/-- Witness for claim C5 (amended): the missing-root hard failure at a
concrete world. -/
theorem parse_directory_failure_policy_witness :
    parse_directory wNoRoot "proj" optsBase
      = .error (.Io ("Directory does not exist: " ++ "proj")) :=
  (parse_directory_failure_policy wNoRoot "proj" optsBase).1 rfl

/-- Claim C6 as stated is false: with nine files and a concurrency bound of
two, the first batch holds four tasks, exceeding the bound. -/
theorem batch_size_exceeds_concurrency_bound :
    optsMcf2.max_concurrent_files = 2 ∧
    (parallel_batches files9 optsMcf2).head? = some ["f1", "f2", "f3", "f4"] :=
  ⟨rfl, rfl⟩

/-- Claim C6, amended: the parallel parser runs the tasks in sequential
batches whose size is the file count divided by max_concurrent_files with a
minimum of one file per chunk — so the number of batches, not the batch size,
approximates the concurrency bound, and a batch may hold more than
max_concurrent_files files; the batches are nonempty and concatenate back to
the full file list in order. -/
theorem batching_structure (files : List String) (options : ParseOptions) :
    (∀ b ∈ parallel_batches files options,
      b ≠ [] ∧ b.length ≤ max 1 (files.length / options.max_concurrent_files)) ∧
    (parallel_batches files options).flatten = files := by
  constructor
  · intro b hb
    have hb2 : b ∈ chunkListFuel (max 1 (files.length / options.max_concurrent_files))
        files.length files := hb
    have h := chunkListFuel_mem _ _ _ b hb2
    refine ⟨h.1, ?_⟩
    have h2 := h.2
    rw [← Nat.max_assoc, Nat.max_self] at h2
    exact h2
  · exact chunkListFuel_join _ _ _ (le_refl _)

/-- Witness for claim C6 (amended) at the nine-file example. -/
theorem batching_structure_witness :
    ((["f1", "f2", "f3", "f4"] : List String) ≠ [] ∧
      (["f1", "f2", "f3", "f4"] : List String).length
        ≤ max 1 (files9.length / optsMcf2.max_concurrent_files)) ∧
    (parallel_batches files9 optsMcf2).flatten = files9 :=
  ⟨(batching_structure files9 optsMcf2).1 _ (by decide),
   (batching_structure files9 optsMcf2).2⟩

end TreeParser
